import Mathlib

/-!
Verification of the commit-ts repository: a shallow embedding of the
commit-construction core (`src/unnamed/part_000`, the current library) and of
the legacy `src/main.ts` mode mapping, with theorems settling the frozen
claims about no-op behaviour, base-state resolution, ref upsert fallback,
submodule HEAD resolution, missing-path policy, parent linkage, POSIX mode
mapping and tree construction.

Modelling conventions:
- JS `async` I/O is embedded as pure functions over explicit oracles: `FS`
  models the local filesystem (`stat`/`readFile`; a read or stat fails exactly
  when the path is absent, surfacing as an ENOENT error as in Node), and
  `Client` models the remote GitHub API collaborator.  Remote calls are
  recorded in an explicit trace (`List RemoteCall`).
- Thrown JS values are embedded as `Thrown`; `Except Thrown` replaces
  exception control flow.
- Optional string fields that the source only ever tests for truthiness
  (`baseSHA`, `baseBranch`, `rootDir`, and the required fields) are embedded
  as `String` with `""` meaning absent, which is observationally identical in
  every use site of the source.
- `string[]` fields read through `?.length` / `|| []` are embedded as
  `List String` (absent and `[]` are indistinguishable at every use site).
- `path.join` is embedded as separator concatenation (the source never relies
  on path normalisation).
-/

/-- A JS value thrown by the embedded code: a Node filesystem ENOENT error
carrying the missing path, a JS `Error` carrying a message, or some thrown
value that is not error-shaped (no string `message` property). -/
inductive Thrown where
  | enoent (path : String)
  | error (message : String)
  | nonError
deriving DecidableEq

/-- Embeds the source's `isError` type guard: a thrown value is an error when
it is an object with a string `message` property.  Node fs errors are `Error`
instances, so `enoent` qualifies. -/
def isError : Thrown → Bool
  | Thrown.enoent _ => true
  | Thrown.error _ => true
  | Thrown.nonError => false

/-- Message carried by a thrown value (read only behind an `isError` guard in
the source). -/
def errMessage : Thrown → String
  | Thrown.enoent p => "ENOENT: no such file or directory, " ++ p
  | Thrown.error m => m
  | Thrown.nonError => ""

/-- Does the character list start with the given pattern list. -/
def leadsWith : List Char → List Char → Bool
  | _, [] => true
  | [], _ :: _ => false
  | a :: as, b :: bs => a == b && leadsWith as bs

/-- Does the character list contain the pattern list as a contiguous run. -/
def containsSub : List Char → List Char → Bool
  | [], p => p.isEmpty
  | c :: t, p => leadsWith (c :: t) p || containsSub t p

/-- Embeds JS `String.prototype.includes`. -/
def strIncludes (s sub : String) : Bool :=
  containsSub s.data sub.data

/-- Drops leading whitespace from a character list. -/
def trimLeftChars : List Char → List Char
  | [] => []
  | c :: t => if c.isWhitespace then trimLeftChars t else c :: t

/-- Embeds JS `String.prototype.trimStart`. -/
def jsTrimLeft (s : String) : String :=
  String.mk (trimLeftChars s.data)

/-- Embeds JS `String.prototype.trim` (strip whitespace at both ends),
computably over the character list. -/
def jsTrim (s : String) : String :=
  String.mk ((trimLeftChars (trimLeftChars s.data.reverse).reverse))

/-- Embeds JS `String.prototype.startsWith`. -/
def jsStartsWith (s p : String) : Bool :=
  leadsWith s.data p.data

/-- Embeds JS `String.prototype.slice(n)` (drop the first `n` units). -/
def jsDrop (s : String) (n : Nat) : String :=
  String.mk (s.data.drop n)

/-- Splitting a character list at every occurrence of a separator character;
like JS `split`, the boundary pieces are kept, so an empty input yields one
empty piece. -/
def splitCharsAux (sep : Char) : List Char → List Char → List (List Char)
  | [], acc => [acc.reverse]
  | c :: t, acc =>
    if c = sep then acc.reverse :: splitCharsAux sep t []
    else splitCharsAux sep t (c :: acc)

/-- Embeds JS `String.prototype.split` with a one-character separator. -/
def jsSplitOnChar (sep : Char) (s : String) : List String :=
  (splitCharsAux sep s.data []).map String.mk

/-- Embeds `path.join` as used by the source (no normalisation is relied on);
`path.join("", b)` is `b`. -/
def pathJoin (a b : String) : String :=
  if a = "" then b else a ++ "/" ++ b

/-- Git tree-entry file modes, the string-literal union `FileMode` of the
source. -/
inductive FileMode where
  | m100644
  | m100755
  | m040000
  | m160000
  | m120000
deriving DecidableEq

/-- Git object kinds, the string-literal union `FileType` of the source. -/
inductive FileType where
  | blob
  | tree
  | commit
deriving DecidableEq

/-- Embeds the source's `File` tree-entry record.  The `sha` field is
`string | null` and optional: `none` is an absent field, `some none` is the
JSON `null` deletion marker, `some (some s)` is a SHA string. -/
structure File where
  path : String
  content : Option String := none
  sha : Option (Option String) := none
  mode : FileMode
  type : Option FileType := none
deriving DecidableEq

/-- Embeds `getFileType` of `part_000`: mode string to object kind. -/
def getFileType : FileMode → FileType
  | FileMode.m100644 => FileType.blob
  | FileMode.m100755 => FileType.blob
  | FileMode.m040000 => FileType.tree
  | FileMode.m160000 => FileType.commit
  | FileMode.m120000 => FileType.blob

/-- Embeds `getFileMode` of `part_000`.  Octal constants of the source:
`0o170000 = 61440` (file-type mask), `0o100000 = 32768` (regular file),
`0o040000 = 16384` (directory), `0o160000 = 57344` (gitlink),
`0o120000 = 40960` (symlink), `0o777 = 511`, `0o111 = 73` (execute bits). -/
def getFileMode (mode : Nat) : FileMode :=
  let type := Nat.land mode 61440
  let perm := Nat.land mode 511
  if type = 32768 then
    if Nat.land perm 73 ≠ 0 then FileMode.m100755 else FileMode.m100644
  else if type = 16384 then FileMode.m040000
  else if type = 57344 then FileMode.m160000
  else if type = 40960 then FileMode.m120000
  else FileMode.m100644

namespace MainTs

/-- Embeds `getFileMode` of the legacy `src/main.ts`: it switches on
`mode & 0o170000` but its first case label is `0o100755 = 33261`, a value with
permission bits outside the `0o170000` mask, exactly as in the source. -/
def getFileMode (mode : Nat) : FileMode :=
  let t := Nat.land mode 61440
  if t = 33261 then FileMode.m100755
  else if t = 16384 then FileMode.m040000
  else if t = 57344 then FileMode.m160000
  else if t = 40960 then FileMode.m120000
  else FileMode.m100644

end MainTs

/-- Result of a `stat` call: file-type flags and the raw POSIX mode bits. -/
structure StatInfo where
  isFile : Bool
  isDirectory : Bool
  mode : Nat
deriving DecidableEq

/-- The local filesystem oracle.  `none` from `stat` or `readFileUtf8` models
the Node ENOENT failure for an absent path. -/
structure FS where
  stat : String → Option StatInfo
  readFileUtf8 : String → Option String

/-- Embeds the scan loop of `resolvePackedRef`: skip lines starting with `#`
and blank lines; split each remaining line on a space (JS
`line.split(" ", 2)` keeps the first two fields); return the sha of the first
line whose second field equals the ref exactly. -/
def findPackedRef : List String → String → Option String
  | [], _ => none
  | line :: rest, ref =>
    if jsStartsWith line "#" || jsTrim line = "" then findPackedRef rest ref
    else
      match jsSplitOnChar ' ' line with
      | sha :: packedRef :: _ =>
        if packedRef = ref then some sha else findPackedRef rest ref
      | _ => findPackedRef rest ref

/-- Embeds `resolvePackedRef` of `part_000`: read `<gitdir>/packed-refs`,
scan it, and fail with an error naming the ref when no line matches. -/
def resolvePackedRef (fs : FS) (gitDir : String) (ref : String) :
    Except Thrown String :=
  let packedRefsPath := pathJoin gitDir "packed-refs"
  match fs.readFileUtf8 packedRefsPath with
  | none => Except.error (Thrown.enoent packedRefsPath)
  | some content =>
    match findPackedRef (jsSplitOnChar '\n' content) ref with
    | some sha => Except.ok sha
    | none =>
      Except.error (Thrown.error ("ref " ++ ref ++ " not found in packed-refs"))

/-- Embeds `resolveGitHEAD` of `part_000`: read and trim `HEAD`; if it is not
a symbolic ref the trimmed content is the commit SHA; otherwise read the loose
ref file, falling back to packed-refs only when that file is absent. -/
def resolveGitHEAD (fs : FS) (gitDir : String) : Except Thrown String :=
  let headPath := pathJoin gitDir "HEAD"
  match fs.readFileUtf8 headPath with
  | none => Except.error (Thrown.enoent headPath)
  | some raw =>
    let content := jsTrim raw
    if !jsStartsWith content "ref: " then Except.ok content
    else
      let ref := jsDrop content 5
      let refPath := pathJoin gitDir ref
      match fs.readFileUtf8 refPath with
      | some looseContent => Except.ok (jsTrim looseContent)
      | none => resolvePackedRef fs gitDir ref

/-- Embeds the `content.match` of the source's `/^gitdir:\s*(.+)$/` regex on
the trimmed `.git` file content: the content must start with `gitdir:`, and
after the following whitespace the captured remainder must be non-empty and
contain no newline. -/
def matchGitdir (content : String) : Option String :=
  if jsStartsWith content "gitdir:" then
    let rest := jsTrimLeft (jsDrop content 7)
    if rest = "" || rest.data.contains '\n' then none else some rest
  else none

/-- Embeds `path.isAbsolute`. -/
def isAbsolutePath (p : String) : Bool :=
  jsStartsWith p "/"

/-- Embeds `path.resolve(dirPath, p)` for the relative-gitdir case (no `..`
normalisation is relied on by the claims). -/
def pathResolve (dirPath p : String) : String :=
  pathJoin dirPath p

/-- Embeds `getSubmoduleCommitSHA` of `part_000`: a directory is a submodule
mount point when its `.git` child is a regular file whose content matches
`gitdir: <path>`; the pinned commit is then resolved through `resolveGitHEAD`
on that git directory. -/
def getSubmoduleCommitSHA (fs : FS) (dirPath : String) :
    Except Thrown (Option String) :=
  let dotGitPath := pathJoin dirPath ".git"
  match fs.stat dotGitPath with
  | none => Except.ok none
  | some stats =>
    if !stats.isFile then Except.ok none
    else
      match fs.readFileUtf8 dotGitPath with
      | none => Except.error (Thrown.enoent dotGitPath)
      | some raw =>
        match matchGitdir (jsTrim raw) with
        | none => Except.ok none
        | some p =>
          let gitDir := if isAbsolutePath p then p else pathResolve dirPath p
          match resolveGitHEAD fs gitDir with
          | Except.error e => Except.error e
          | Except.ok sha => Except.ok (some sha)

/-- Embeds the stat-classify-read block of `getFileContentAndMode` of
`part_000` (the source duplicates this block verbatim in both branches of
that function; it is factored once here): stat the path, classify a directory
as submodule link or plain tree, otherwise read the file content and map its
POSIX mode. -/
def statReadBlock (fs : FS) (filePath : String) : Except Thrown File :=
  match fs.stat filePath with
  | none => Except.error (Thrown.enoent filePath)
  | some stats =>
    if stats.isDirectory then
      match getSubmoduleCommitSHA fs filePath with
      | Except.error e => Except.error e
      | Except.ok (some commitSHA) =>
        Except.ok { path := filePath, mode := FileMode.m160000,
                    type := some FileType.commit, sha := some (some commitSHA) }
      | Except.ok none =>
        Except.ok { path := filePath, mode := FileMode.m040000,
                    type := some FileType.tree }
    else
      match fs.readFileUtf8 filePath with
      | none => Except.error (Thrown.enoent filePath)
      | some content =>
        let mode := getFileMode stats.mode
        Except.ok { path := filePath, content := some content, mode := mode,
                    type := some (getFileType mode) }

/-- Embeds `getFileContentAndMode` of `part_000`: without `deleteIfNotExist`
any filesystem failure propagates; with it, an ENOENT failure anywhere in the
block is caught and turned into an implicit deletion marker (`sha` null, no
content) with the default regular-file mode, while any other error is
rethrown. -/
def getFileContentAndMode (fs : FS) (filePath : String)
    (deleteIfNotExist : Bool) : Except Thrown File :=
  if !deleteIfNotExist then
    statReadBlock fs filePath
  else
    match statReadBlock fs filePath with
    | Except.error (Thrown.enoent _) =>
      Except.ok { sha := some none, path := filePath, mode := FileMode.m100644,
                  type := some (getFileType FileMode.m100644) }
    | Except.error e => Except.error e
    | Except.ok file => Except.ok file

/-- Embeds the `Options` record of `part_000`.  String fields that the source
only tests for truthiness use `""` for an absent value; optional lists use
`[]`; the logger is log-only plumbing and is not modelled. -/
structure Options where
  owner : String
  repo : String
  branch : String
  message : String
  rootDir : String := ""
  empty : Bool := false
  files : List String := []
  baseSHA : String := ""
  baseBranch : String := ""
  noParent : Bool := false
  deletedFiles : List String := []
  deleteIfNotExist : Bool := false
  forcePush : Bool := false
deriving DecidableEq

/-- Embeds `createTreeFile` of `part_000`: build an addition tree entry from
the file at `rootDir/filePath`. -/
def createTreeFile (fs : FS) (opts : Options) (filePath : String) :
    Except Thrown File :=
  match getFileContentAndMode fs (pathJoin opts.rootDir filePath)
      opts.deleteIfNotExist with
  | Except.error e => Except.error e
  | Except.ok file =>
    Except.ok { path := filePath, sha := file.sha, mode := file.mode,
                type := some (getFileType file.mode), content := file.content }

/-- Embeds `createDeletedTreeFile` of `part_000`: build a deletion tree entry
(`sha` null, no content) whose mode and kind come from inspecting the path. -/
def createDeletedTreeFile (fs : FS) (opts : Options) (filePath : String) :
    Except Thrown File :=
  match getFileContentAndMode fs (pathJoin opts.rootDir filePath)
      opts.deleteIfNotExist with
  | Except.error e => Except.error e
  | Except.ok file =>
    Except.ok { path := filePath, mode := file.mode,
                type := some (getFileType file.mode), sha := some none }

/-- Sequential per-path entry construction: the first failure aborts, as the
awaited loop of the source does. -/
def buildFiles (f : String → Except Thrown File) :
    List String → Except Thrown (List File)
  | [] => Except.ok []
  | p :: ps =>
    match f p with
    | Except.error e => Except.error e
    | Except.ok file =>
      match buildFiles f ps with
      | Except.error e => Except.error e
      | Except.ok files => Except.ok (file :: files)

/-- Embeds the two entry-building loops of `getTreeSHA` of `part_000`:
addition entries for `files`, then deletion entries for `deletedFiles`. -/
def buildTreeFiles (fs : FS) (opts : Options) : Except Thrown (List File) :=
  match buildFiles (createTreeFile fs opts) opts.files with
  | Except.error e => Except.error e
  | Except.ok adds =>
    match buildFiles (createDeletedTreeFile fs opts) opts.deletedFiles with
    | Except.error e => Except.error e
    | Except.ok dels => Except.ok (adds ++ dels)

/-- A resolved tree SHA box of the GraphQL responses. -/
structure TreeOid where
  oid : String
deriving DecidableEq

/-- A resolved commit target of the GraphQL responses: commit oid plus its
tree oid. -/
structure CommitTarget where
  oid : String
  tree : TreeOid
deriving DecidableEq

/-- Embeds the `Ref` record of `part_000` (no `name` field there). -/
structure Ref where
  target : CommitTarget
deriving DecidableEq

/-- The box holding a created or updated commit SHA. -/
structure CommitShaBox where
  sha : String
deriving DecidableEq

/-- Embeds the `Result` record of `part_000`. -/
structure Result where
  commit : CommitShaBox
deriving DecidableEq

/-- One remote API call made by the embedded code, recorded in order. -/
inductive RemoteCall where
  | getBranchCall (owner repo branch : String)
  | getDefaultBranchCall (owner repo : String)
  | getTreeCall (owner repo oid : String)
  | createTreeCall (owner repo : String) (tree : List File)
      (baseTree : Option String)
  | createCommitCall (owner repo message treeSHA : String)
      (parents : Option (List String))
  | updateRefCall (owner repo ref sha : String) (force : Bool)
  | createRefCall (owner repo ref sha : String)
deriving DecidableEq

/-- Is the call a `createCommit` remote write. -/
def isCreateCommitCall : RemoteCall → Bool
  | RemoteCall.createCommitCall _ _ _ _ _ => true
  | _ => false

/-- Is the call a `createTree` remote write. -/
def isCreateTreeCall : RemoteCall → Bool
  | RemoteCall.createTreeCall _ _ _ _ => true
  | _ => false

/-- The remote collaborator oracle: responses of the GraphQL lookups and REST
writes used by `part_000`.  Only `updateRefResult` is fallible, since the
source inspects its failures for control flow. -/
structure Client where
  branches : String → String → String → Option Ref
  defaultBranch : String → String → Ref
  commitTree : String → String → String → String
  newTreeSHA : String → String → List File → Option String → String
  newCommitSHA : String → String → String → String →
    Option (List String) → String
  updateRefResult : String → String → String → String → Bool →
    Except Thrown String
  createRefResult : String → String → String → String → String

/-- Embeds `getBaseBranch` of `part_000`, with its remote-call trace: an
explicit `baseSHA` wins and only fetches that commit's tree; else an explicit
`baseBranch` is looked up (failing, with the source's error message built from
`opts.branch`, when absent); else the target branch is used when it exists;
else the default branch. -/
def getBaseBranch (client : Client) (opts : Options) :
    Except Thrown Ref × List RemoteCall :=
  if opts.baseSHA ≠ "" then
    (Except.ok
       { target :=
           { oid := opts.baseSHA,
             tree :=
               { oid := client.commitTree opts.owner opts.repo opts.baseSHA } } },
     [RemoteCall.getTreeCall opts.owner opts.repo opts.baseSHA])
  else if opts.baseBranch ≠ "" then
    match client.branches opts.owner opts.repo opts.baseBranch with
    | some branch =>
      (Except.ok branch,
       [RemoteCall.getBranchCall opts.owner opts.repo opts.baseBranch])
    | none =>
      (Except.error (Thrown.error ("Branch " ++ opts.branch ++
         " does not exist in " ++ opts.owner ++ "/" ++ opts.repo)),
       [RemoteCall.getBranchCall opts.owner opts.repo opts.baseBranch])
  else
    match client.branches opts.owner opts.repo opts.branch with
    | some branch =>
      (Except.ok branch,
       [RemoteCall.getBranchCall opts.owner opts.repo opts.branch])
    | none =>
      (Except.ok (client.defaultBranch opts.owner opts.repo),
       [RemoteCall.getBranchCall opts.owner opts.repo opts.branch,
        RemoteCall.getDefaultBranchCall opts.owner opts.repo])

/-- Embeds `getTreeSHA` of `part_000`: with `empty` the base tree SHA is
reused verbatim and no tree is created; otherwise the entries are built and
`createTree` is called with `base_tree` omitted exactly when `noParent` is
set. -/
def getTreeSHA (client : Client) (fs : FS) (opts : Options) (baseBranch : Ref) :
    Except Thrown String × List RemoteCall :=
  if opts.empty then
    (Except.ok baseBranch.target.tree.oid, [])
  else
    match buildTreeFiles fs opts with
    | Except.error e => (Except.error e, [])
    | Except.ok tree =>
      let baseTree : Option String :=
        if opts.noParent then none else some baseBranch.target.tree.oid
      (Except.ok (client.newTreeSHA opts.owner opts.repo tree baseTree),
       [RemoteCall.createTreeCall opts.owner opts.repo tree baseTree])

/-- Embeds `validateOptions` of `part_000`: the first falsy field among
owner, repo, branch, message raises `<key> is required`. -/
def validateOptions (opts : Options) : Option Thrown :=
  if opts.owner = "" then some (Thrown.error "owner is required")
  else if opts.repo = "" then some (Thrown.error "repo is required")
  else if opts.branch = "" then some (Thrown.error "branch is required")
  else if opts.message = "" then some (Thrown.error "message is required")
  else none

/-- Embeds `updateRef` of `part_000`: one `updateRef` API call on
`heads/<branch>` with the force flag (`opts.forcePush || false`). -/
def updateRef (client : Client) (opts : Options) (sha : String) :
    Except Thrown Result × List RemoteCall :=
  let refName := "heads/" ++ opts.branch
  let call := RemoteCall.updateRefCall opts.owner opts.repo refName sha
    opts.forcePush
  match client.updateRefResult opts.owner opts.repo refName sha
      opts.forcePush with
  | Except.ok updatedSha => (Except.ok { commit := { sha := updatedSha } }, [call])
  | Except.error e => (Except.error e, [call])

/-- Embeds `createRef` of `part_000`: one `createRef` API call on
`refs/heads/<branch>`. -/
def createRef (client : Client) (opts : Options) (sha : String) :
    Result × List RemoteCall :=
  let refName := "refs/heads/" ++ opts.branch
  (({ commit := { sha := client.createRefResult opts.owner opts.repo refName sha } }),
   [RemoteCall.createRefCall opts.owner opts.repo refName sha])

/-- Embeds the try/catch tail of `createCommit` of `part_000` (its ref upsert
coordinator): attempt the ref update first; rethrow a non-error value, and
rethrow an error whose message does not contain `Reference does not exist`;
only the remaining failures fall back to creating the ref. -/
def upsertRef (client : Client) (opts : Options) (sha : String) :
    Except Thrown Result × List RemoteCall :=
  match updateRef client opts sha with
  | (Except.ok r, calls) => (Except.ok r, calls)
  | (Except.error e, calls) =>
    if isError e = false then (Except.error e, calls)
    else if strIncludes (errMessage e) "Reference does not exist" = false then
      (Except.error e, calls)
    else
      let created := createRef client opts sha
      (Except.ok created.fst, calls ++ created.snd)

/-- Lifts the upsert outcome into the `Result | undefined` return type of
`createCommit`. -/
def liftResult : Except Thrown Result → Except Thrown (Option Result)
  | Except.ok r => Except.ok (some r)
  | Except.error e => Except.error e

/-- Embeds `createCommit` of `part_000` (the spec entry point
`performCommit`), with its remote-call trace.  The no-op guard precedes
validation; then base resolution, tree construction, commit creation with
zero parents exactly when `noParent` is set, and the ref upsert tail. -/
def createCommit (client : Client) (fs : FS) (opts : Options) :
    Except Thrown (Option Result) × List RemoteCall :=
  if opts.files.isEmpty && opts.deletedFiles.isEmpty && !opts.empty then
    (Except.ok none, [])
  else
    match validateOptions opts with
    | some e => (Except.error e, [])
    | none =>
      match getBaseBranch client opts with
      | (Except.error e, calls1) => (Except.error e, calls1)
      | (Except.ok baseBranch, calls1) =>
        match getTreeSHA client fs opts baseBranch with
        | (Except.error e, calls2) => (Except.error e, calls1 ++ calls2)
        | (Except.ok treeSHA, calls2) =>
          let parents : Option (List String) :=
            if opts.noParent then none else some [baseBranch.target.oid]
          let commitSHA :=
            client.newCommitSHA opts.owner opts.repo opts.message treeSHA parents
          let preCalls := calls1 ++ calls2 ++
            [RemoteCall.createCommitCall opts.owner opts.repo opts.message
              treeSHA parents]
          let tail := upsertRef client opts commitSHA
          (liftResult tail.fst, preCalls ++ tail.snd)

/-- Is the entry a deletion marker (JSON `null` sha). -/
def isDeletionEntry (e : File) : Bool :=
  e.sha = some none

/-- Modelled from the spec: the external `createTree` collaborator contract
(spec section 6, restated in the source comment at the `createTree` call
site): with a base tree, paths of the base remain unless an entry marks them
for deletion, and non-deletion entries add their paths; without a base tree
the resulting tree holds only the paths of the non-deletion entries listed.
This predicate states whether a path is present in the resulting tree. -/
def resultTreeHasPath (baseTree : Option String) (basePaths : List String)
    (entries : List File) (p : String) : Bool :=
  match baseTree with
  | none => entries.any (fun e => e.path = p && !(isDeletionEntry e))
  | some _ =>
    entries.any (fun e => e.path = p && !(isDeletionEntry e)) ||
    (basePaths.any (fun q => q = p) &&
     !(entries.any (fun e => e.path = p && isDeletionEntry e)))

/-- A filesystem with no entries at all. -/
def noRemoteFS : FS :=
  { stat := fun _ => none, readFileUtf8 := fun _ => none }

/-- A demonstration collaborator: branch `feat` exists with commit `c0` and
tree `t0`; all writes succeed with fixed SHAs. -/
def demoClient : Client :=
  { branches := fun _ _ b =>
      if b = "feat" then
        some { target := { oid := "c0", tree := { oid := "t0" } } }
      else none,
    defaultBranch := fun _ _ =>
      { target := { oid := "cd", tree := { oid := "td" } } },
    commitTree := fun _ _ _ => "tsha",
    newTreeSHA := fun _ _ _ _ => "newtree",
    newCommitSHA := fun _ _ _ _ _ => "newcommit",
    updateRefResult := fun _ _ _ _ _ => Except.ok "upsha",
    createRefResult := fun _ _ _ _ => "crsha" }

/-- A collaborator whose ref update fails with the missing-reference error
signature, as the remote reports for an absent branch. -/
def fallbackClient : Client :=
  { branches := fun _ _ _ => none,
    defaultBranch := fun _ _ =>
      { target := { oid := "cd", tree := { oid := "td" } } },
    commitTree := fun _ _ _ => "tsha",
    newTreeSHA := fun _ _ _ _ => "newtree",
    newCommitSHA := fun _ _ _ _ _ => "newcommit",
    updateRefResult := fun _ _ _ _ _ =>
      Except.error (Thrown.error "Update failed: Reference does not exist ok"),
    createRefResult := fun _ _ _ _ => "crsha" }

/-- A git directory `g` whose `HEAD` is a symbolic ref, with a loose ref file
present and a stale different SHA listed in `packed-refs`. -/
def looseWinsFS : FS :=
  { stat := fun _ => none,
    readFileUtf8 := fun p =>
      if p = "g/HEAD" then some "ref: refs/heads/main\n"
      else if p = "g/refs/heads/main" then some "aaa\n"
      else if p = "g/packed-refs" then some "# comment line\nbbb refs/heads/main"
      else none }

/-- A filesystem holding one regular file `x` with content `hello` and POSIX
mode `0o100644 = 33188`. -/
def smallFS : FS :=
  { stat := fun p =>
      if p = "x" then some { isFile := true, isDirectory := false, mode := 33188 }
      else none,
    readFileUtf8 := fun p => if p = "x" then some "hello" else none }

/-- Options with no additions, no deletions, `empty` false, and all required
fields present. -/
def allEmptyOpts : Options :=
  { owner := "o", repo := "r", branch := "b", message := "m" }

/-- Options with no additions, no deletions, `empty` false, and the required
owner and message fields missing. -/
def missingFieldsOpts : Options :=
  { owner := "", repo := "r", branch := "feat", message := "" }

/-- Options carrying both an explicit base SHA and an explicit base branch. -/
def shaOpts : Options :=
  { owner := "o", repo := "r", branch := "b", message := "m",
    baseSHA := "abc", baseBranch := "dev" }

/-- Options requesting an intentionally empty commit on branch `feat`. -/
def emptyCommitOpts : Options :=
  { owner := "o", repo := "r", branch := "feat", message := "m", empty := true }

/-- Options requesting an empty root commit (no parent) on branch `feat`. -/
def rootCommitOpts : Options :=
  { owner := "o", repo := "r", branch := "feat", message := "m",
    empty := true, noParent := true }

/-- Options adding the single file `x` with `noParent` set. -/
def treeOpts : Options :=
  { owner := "o", repo := "r", branch := "b", message := "m",
    files := ["x"], noParent := true }

/-- Options with `deleteIfNotExist` enabled. -/
def lenientOpts : Options :=
  { owner := "o", repo := "r", branch := "b", message := "m",
    deletedFiles := ["gone.txt"], deleteIfNotExist := true }

/-- The tree entry built for file `x` of `smallFS`. -/
def xEntry : File :=
  { path := "x", content := some "hello", sha := none, mode := FileMode.m100644,
    type := some FileType.blob }

lemma getBaseBranch_trace_lookups (client : Client) (opts : Options) :
    ((getBaseBranch client opts).snd).filter isCreateTreeCall = [] ∧
    ((getBaseBranch client opts).snd).filter isCreateCommitCall = [] := by
  have h : ∀ c ∈ (getBaseBranch client opts).snd,
      isCreateTreeCall c = false ∧ isCreateCommitCall c = false := by
    unfold getBaseBranch
    (repeat' split) <;> simp [isCreateTreeCall, isCreateCommitCall]
  constructor <;>
    exact List.filter_eq_nil_iff.mpr fun c hc => by simp [(h c hc).1, (h c hc).2]

lemma getTreeSHA_trace_no_commit (client : Client) (fs : FS) (opts : Options)
    (base : Ref) :
    ((getTreeSHA client fs opts base).snd).filter isCreateCommitCall = [] := by
  have h : ∀ c ∈ (getTreeSHA client fs opts base).snd,
      isCreateCommitCall c = false := by
    unfold getTreeSHA
    (repeat' split) <;> simp [isCreateCommitCall]
  exact List.filter_eq_nil_iff.mpr fun c hc => by simp [h c hc]

lemma upsertRef_trace_refcalls (client : Client) (opts : Options) (sha : String) :
    ((upsertRef client opts sha).snd).filter isCreateTreeCall = [] ∧
    ((upsertRef client opts sha).snd).filter isCreateCommitCall = [] := by
  have h : ∀ c ∈ (upsertRef client opts sha).snd,
      isCreateTreeCall c = false ∧ isCreateCommitCall c = false := by
    simp only [upsertRef, updateRef, createRef]
    rcases hu : client.updateRefResult opts.owner opts.repo ("heads/" ++ opts.branch)
        sha opts.forcePush with e | u
    · simp only [hu]
      (repeat' split) <;> simp [isCreateTreeCall, isCreateCommitCall]
    · simp only [hu]
      simp [isCreateTreeCall, isCreateCommitCall]
  constructor <;>
    exact List.filter_eq_nil_iff.mpr fun c hc => by simp [(h c hc).1, (h c hc).2]

/-- C1: for every request whose additions list is empty, whose deletions list
is empty, and whose `empty` (allowEmpty) flag is false, `createCommit` returns
the no-op sentinel (`undefined`, embedded as `none`) and performs zero remote
calls: the recorded trace of tree, commit and ref operations is empty. -/
theorem createCommit_noop_no_calls (client : Client) (fs : FS) (opts : Options)
    (h1 : opts.files = []) (h2 : opts.deletedFiles = [])
    (h3 : opts.empty = false) :
    createCommit client fs opts = (Except.ok none, []) := by
  simp [createCommit, h1, h2, h3]

/-- Witness for the no-op claim: a request with valid required fields but no
additions, no deletions, and `empty` false yields the sentinel with an empty
remote trace. -/
theorem createCommit_noop_no_calls_witness :
    createCommit demoClient noRemoteFS allEmptyOpts = (Except.ok none, []) :=
  createCommit_noop_no_calls demoClient noRemoteFS allEmptyOpts rfl rfl rfl

/-- C10: the no-op check precedes required-field validation.  A request with
no additions, no deletions and `empty` false returns the sentinel without
throwing even when required fields (owner, message here) are empty strings;
conversely, any thrown error implies the request passed the no-op check. -/
theorem noop_precedes_validation :
    (∀ (client : Client) (fs : FS) (opts : Options),
        opts.files = [] → opts.deletedFiles = [] → opts.empty = false →
        opts.owner = "" → opts.message = "" →
        createCommit client fs opts = (Except.ok none, [])) ∧
    (∀ (client : Client) (fs : FS) (opts : Options) (e : Thrown),
        (createCommit client fs opts).fst = Except.error e →
        ¬(opts.files = [] ∧ opts.deletedFiles = [] ∧ opts.empty = false)) := by
  constructor
  · intro client fs opts h1 h2 h3 _ _
    simp [createCommit, h1, h2, h3]
  · rintro client fs opts e herr ⟨h1, h2, h3⟩
    simp [createCommit, h1, h2, h3] at herr

/-- Witness for the validation-ordering claim: a request missing its owner and
message still returns the sentinel instead of the `is required` error. -/
theorem noop_precedes_validation_witness :
    createCommit demoClient noRemoteFS missingFieldsOpts = (Except.ok none, []) :=
  noop_precedes_validation.1 demoClient noRemoteFS missingFieldsOpts
    rfl rfl rfl rfl rfl

/-- C2: base-state resolution priority.  With an explicit base SHA the
resolver returns that SHA with its fetched tree and the only remote call is
the commit-tree lookup (the explicit base branch is never consulted); absent
a SHA, an explicit base branch that exists is used; else the target branch if
it exists; else the default branch. -/
theorem getBaseBranch_priority :
    (∀ (client : Client) (opts : Options), opts.baseSHA ≠ "" →
        getBaseBranch client opts =
          (Except.ok
             { target :=
                 { oid := opts.baseSHA,
                   tree :=
                     { oid := client.commitTree opts.owner opts.repo opts.baseSHA } } },
           [RemoteCall.getTreeCall opts.owner opts.repo opts.baseSHA])) ∧
    (∀ (client : Client) (opts : Options) (ref : Ref),
        opts.baseSHA = "" → opts.baseBranch ≠ "" →
        client.branches opts.owner opts.repo opts.baseBranch = some ref →
        getBaseBranch client opts =
          (Except.ok ref,
           [RemoteCall.getBranchCall opts.owner opts.repo opts.baseBranch])) ∧
    (∀ (client : Client) (opts : Options) (ref : Ref),
        opts.baseSHA = "" → opts.baseBranch = "" →
        client.branches opts.owner opts.repo opts.branch = some ref →
        getBaseBranch client opts =
          (Except.ok ref,
           [RemoteCall.getBranchCall opts.owner opts.repo opts.branch])) ∧
    (∀ (client : Client) (opts : Options),
        opts.baseSHA = "" → opts.baseBranch = "" →
        client.branches opts.owner opts.repo opts.branch = none →
        getBaseBranch client opts =
          (Except.ok (client.defaultBranch opts.owner opts.repo),
           [RemoteCall.getBranchCall opts.owner opts.repo opts.branch,
            RemoteCall.getDefaultBranchCall opts.owner opts.repo])) := by
  refine ⟨?_, ?_, ?_, ?_⟩
  · intro client opts h
    simp [getBaseBranch, h]
  · intro client opts ref h1 h2 h3
    simp [getBaseBranch, h1, h2, h3]
  · intro client opts ref h1 h2 h3
    simp [getBaseBranch, h1, h2, h3]
  · intro client opts h1 h2 h3
    simp [getBaseBranch, h1, h2, h3]

/-- Witness for the base-priority claim: with both `baseSHA` and `baseBranch`
set, the SHA is used and only the commit-tree lookup is performed. -/
theorem getBaseBranch_priority_witness :
    getBaseBranch demoClient shaOpts =
      (Except.ok { target := { oid := "abc", tree := { oid := "tsha" } } },
       [RemoteCall.getTreeCall "o" "r" "abc"]) :=
  getBaseBranch_priority.1 demoClient shaOpts (by decide)

/-- C5: missing-path policy of `getFileContentAndMode` and the tree-entry
builders.  When the path is absent from the filesystem: with
`deleteIfNotExist` false the result is the ENOENT failure; with it true, no
failure is raised and the entry is a deletion marker (`sha` null, no content)
with the default regular-file mode `100644`, for additions and deletions
alike. -/
theorem missing_path_policy :
    (∀ (fs : FS) (p : String), fs.stat p = none →
        getFileContentAndMode fs p false = Except.error (Thrown.enoent p)) ∧
    (∀ (fs : FS) (p : String), fs.stat p = none →
        getFileContentAndMode fs p true =
          Except.ok { path := p, sha := some none, mode := FileMode.m100644,
                      type := some FileType.blob, content := none }) ∧
    (∀ (fs : FS) (opts : Options) (p : String),
        opts.deleteIfNotExist = true →
        fs.stat (pathJoin opts.rootDir p) = none →
        createTreeFile fs opts p =
          Except.ok { path := p, sha := some none, mode := FileMode.m100644,
                      type := some FileType.blob, content := none } ∧
        createDeletedTreeFile fs opts p =
          Except.ok { path := p, sha := some none, mode := FileMode.m100644,
                      type := some FileType.blob, content := none }) ∧
    (∀ (fs : FS) (opts : Options) (p : String),
        opts.deleteIfNotExist = false →
        fs.stat (pathJoin opts.rootDir p) = none →
        createTreeFile fs opts p =
          Except.error (Thrown.enoent (pathJoin opts.rootDir p)) ∧
        createDeletedTreeFile fs opts p =
          Except.error (Thrown.enoent (pathJoin opts.rootDir p))) := by
  refine ⟨?_, ?_, ?_, ?_⟩
  · intro fs p h
    simp [getFileContentAndMode, statReadBlock, h]
  · intro fs p h
    simp [getFileContentAndMode, statReadBlock, h, getFileType]
  · intro fs opts p hdel h
    constructor <;>
      simp [createTreeFile, createDeletedTreeFile, getFileContentAndMode,
        statReadBlock, hdel, h, getFileType]
  · intro fs opts p hdel h
    constructor <;>
      simp [createTreeFile, createDeletedTreeFile, getFileContentAndMode,
        statReadBlock, hdel, h]

/-- Witness for the missing-path claim: deleting `gone.txt`, absent from the
filesystem, with `deleteIfNotExist` set yields the deletion entry rather than
an error. -/
theorem missing_path_policy_witness :
    createDeletedTreeFile noRemoteFS lenientOpts "gone.txt" =
      Except.ok { path := "gone.txt", sha := some none, mode := FileMode.m100644,
                  type := some FileType.blob, content := none } :=
  (missing_path_policy.2.2.1 noRemoteFS lenientOpts "gone.txt" rfl rfl).2

/-- C8: with the `empty` (allowEmpty) flag set, `getTreeSHA` skips the
tree-building step (no `createTree` call) and returns exactly the resolved
base tree SHA; consequently the commit object is created with its tree SHA
equal to the base tree SHA, so its tree content is identical to its
parent's. -/
theorem empty_commit_reuses_base_tree :
    (∀ (client : Client) (fs : FS) (opts : Options) (base : Ref),
        opts.empty = true →
        getTreeSHA client fs opts base = (Except.ok base.target.tree.oid, [])) ∧
    (∀ (client : Client) (fs : FS) (opts : Options) (base : Ref)
        (calls1 : List RemoteCall),
        opts.empty = true →
        validateOptions opts = none →
        getBaseBranch client opts = (Except.ok base, calls1) →
        (createCommit client fs opts).snd.filter isCreateTreeCall = [] ∧
        (createCommit client fs opts).snd.filter isCreateCommitCall =
          [RemoteCall.createCommitCall opts.owner opts.repo opts.message
            base.target.tree.oid
            (if opts.noParent then none else some [base.target.oid])]) := by
  constructor
  · intro client fs opts base h
    simp [getTreeSHA, h]
  · intro client fs opts base calls1 hempty hval hbase
    have htree : getTreeSHA client fs opts base =
        (Except.ok base.target.tree.oid, []) := by
      simp [getTreeSHA, hempty]
    have hc1 : calls1.filter isCreateTreeCall = [] := by
      have hs := congrArg Prod.snd hbase
      simp only at hs
      rw [← hs]
      exact (getBaseBranch_trace_lookups client opts).1
    have hc1c : calls1.filter isCreateCommitCall = [] := by
      have hs := congrArg Prod.snd hbase
      simp only at hs
      rw [← hs]
      exact (getBaseBranch_trace_lookups client opts).2
    constructor <;>
      simp [createCommit, hempty, hval, hbase, htree, List.filter_append,
        hc1, hc1c, isCreateTreeCall, isCreateCommitCall,
        (upsertRef_trace_refcalls client opts _).1,
        (upsertRef_trace_refcalls client opts _).2]

/-- Witness for the empty-commit claim: an intentionally empty commit on the
existing branch `feat` creates no tree and commits on the base tree `t0`. -/
theorem empty_commit_reuses_base_tree_witness :
    (createCommit demoClient noRemoteFS emptyCommitOpts).snd.filter
        isCreateTreeCall = [] ∧
    (createCommit demoClient noRemoteFS emptyCommitOpts).snd.filter
        isCreateCommitCall =
      [RemoteCall.createCommitCall "o" "r" "m" "t0" (some ["c0"])] :=
  empty_commit_reuses_base_tree.2 demoClient noRemoteFS emptyCommitOpts
    { target := { oid := "c0", tree := { oid := "t0" } } }
    [RemoteCall.getBranchCall "o" "r" "feat"] rfl rfl rfl

/-- C6: parent linkage.  Whenever the pipeline reaches commit creation, the
single `createCommit` remote write carries zero parents (`none`, the omitted
`parents` field) exactly when `noParent` is set, and otherwise exactly one
parent, the resolved base commit SHA. -/
theorem parent_linkage (client : Client) (fs : FS) (opts : Options) (base : Ref)
    (treeSHA : String) (calls1 calls2 : List RemoteCall)
    (hguard : (opts.files.isEmpty && opts.deletedFiles.isEmpty && !opts.empty)
      = false)
    (hval : validateOptions opts = none)
    (hbase : getBaseBranch client opts = (Except.ok base, calls1))
    (htree : getTreeSHA client fs opts base = (Except.ok treeSHA, calls2)) :
    (createCommit client fs opts).snd.filter isCreateCommitCall =
      [RemoteCall.createCommitCall opts.owner opts.repo opts.message treeSHA
        (if opts.noParent then none else some [base.target.oid])] := by
  have hc1 : calls1.filter isCreateCommitCall = [] := by
    have hs := congrArg Prod.snd hbase
    simp only at hs
    rw [← hs]
    exact (getBaseBranch_trace_lookups client opts).2
  have hc2 : calls2.filter isCreateCommitCall = [] := by
    have hs := congrArg Prod.snd htree
    simp only at hs
    rw [← hs]
    exact getTreeSHA_trace_no_commit client fs opts base
  simp [createCommit, hguard, hval, hbase, htree, List.filter_append,
    hc1, hc2, isCreateCommitCall,
    (upsertRef_trace_refcalls client opts _).2]

/-- Witness for the parent-linkage claim: an empty commit with `noParent`
produces a commit write with zero parents. -/
theorem parent_linkage_witness :
    (createCommit demoClient noRemoteFS rootCommitOpts).snd.filter
        isCreateCommitCall =
      [RemoteCall.createCommitCall "o" "r" "m" "t0" none] :=
  parent_linkage demoClient noRemoteFS rootCommitOpts
    { target := { oid := "c0", tree := { oid := "t0" } } } "t0"
    [RemoteCall.getBranchCall "o" "r" "feat"] [] rfl rfl rfl rfl

/-- C3: the ref upsert coordinator.  The update is attempted unconditionally
first (the trace always begins with the `updateRef` call); on success no
fallback occurs; the fallback to `createRef` happens exactly when the update
fails with an error-shaped value whose message contains `Reference does not
exist`; every other failure propagates to the caller unchanged with no
`createRef` call. -/
theorem upsertRef_update_first_fallback :
    (∀ (client : Client) (opts : Options) (sha : String),
        ((upsertRef client opts sha).snd).head? =
          some (RemoteCall.updateRefCall opts.owner opts.repo
            ("heads/" ++ opts.branch) sha opts.forcePush)) ∧
    (∀ (client : Client) (opts : Options) (sha u : String),
        client.updateRefResult opts.owner opts.repo ("heads/" ++ opts.branch)
            sha opts.forcePush = Except.ok u →
        upsertRef client opts sha =
          (Except.ok { commit := { sha := u } },
           [RemoteCall.updateRefCall opts.owner opts.repo
              ("heads/" ++ opts.branch) sha opts.forcePush])) ∧
    (∀ (client : Client) (opts : Options) (sha : String) (e : Thrown),
        client.updateRefResult opts.owner opts.repo ("heads/" ++ opts.branch)
            sha opts.forcePush = Except.error e →
        isError e = true →
        strIncludes (errMessage e) "Reference does not exist" = true →
        upsertRef client opts sha =
          (Except.ok
             { commit :=
                 { sha := client.createRefResult opts.owner opts.repo
                     ("refs/heads/" ++ opts.branch) sha } },
           [RemoteCall.updateRefCall opts.owner opts.repo
              ("heads/" ++ opts.branch) sha opts.forcePush,
            RemoteCall.createRefCall opts.owner opts.repo
              ("refs/heads/" ++ opts.branch) sha])) ∧
    (∀ (client : Client) (opts : Options) (sha : String) (e : Thrown),
        client.updateRefResult opts.owner opts.repo ("heads/" ++ opts.branch)
            sha opts.forcePush = Except.error e →
        (isError e = false ∨
         strIncludes (errMessage e) "Reference does not exist" = false) →
        upsertRef client opts sha =
          (Except.error e,
           [RemoteCall.updateRefCall opts.owner opts.repo
              ("heads/" ++ opts.branch) sha opts.forcePush])) := by
  refine ⟨?_, ?_, ?_, ?_⟩
  · intro client opts sha
    rcases h : client.updateRefResult opts.owner opts.repo
        ("heads/" ++ opts.branch) sha opts.forcePush with e | u
    · simp only [upsertRef, updateRef, createRef, h]
      (repeat' split) <;> simp
    · simp [upsertRef, updateRef, h]
  · intro client opts sha u h
    simp [upsertRef, updateRef, h]
  · intro client opts sha e h h1 h2
    simp [upsertRef, updateRef, createRef, h, h1, h2]
  · intro client opts sha e h h12
    rcases h12 with h2 | h2 <;> simp [upsertRef, updateRef, h, h2]

/-- Witness for the upsert claim: a failing update whose message carries the
missing-reference signature falls back to ref creation, and the trace begins
with the update attempt. -/
theorem upsertRef_update_first_fallback_witness :
    upsertRef fallbackClient emptyCommitOpts "s1" =
      (Except.ok { commit := { sha := "crsha" } },
       [RemoteCall.updateRefCall "o" "r" "heads/feat" "s1" false,
        RemoteCall.createRefCall "o" "r" "refs/heads/feat" "s1"]) :=
  upsertRef_update_first_fallback.2.2.1 fallbackClient emptyCommitOpts "s1"
    (Thrown.error "Update failed: Reference does not exist ok") rfl rfl
    (by decide)

/-- C9: tree creation and `noParent`.  When the commit is not empty, the
`createTree` remote write receives `base_tree` omitted (`none`) exactly when
`noParent` is set and the base tree SHA otherwise; under the spec-modelled
collaborator semantics (`resultTreeHasPath`), a tree built without a base
holds only paths of the explicitly listed non-deletion entries, so base paths
not listed in the request are absent, while with a base tree unlisted base
paths are preserved. -/
theorem noParent_base_tree_omitted :
    (∀ (client : Client) (fs : FS) (opts : Options) (base : Ref)
        (tree : List File),
        opts.empty = false →
        buildTreeFiles fs opts = Except.ok tree →
        getTreeSHA client fs opts base =
          (Except.ok (client.newTreeSHA opts.owner opts.repo tree
             (if opts.noParent then none else some base.target.tree.oid)),
           [RemoteCall.createTreeCall opts.owner opts.repo tree
             (if opts.noParent then none else some base.target.tree.oid)])) ∧
    (∀ (basePaths : List String) (entries : List File) (p : String),
        resultTreeHasPath none basePaths entries p = true →
        ∃ e ∈ entries, e.path = p ∧ isDeletionEntry e = false) ∧
    (∀ (t : String) (basePaths : List String) (entries : List File)
        (p : String),
        p ∈ basePaths →
        (∀ e ∈ entries, e.path ≠ p) →
        resultTreeHasPath none basePaths entries p = false ∧
        resultTreeHasPath (some t) basePaths entries p = true) := by
  refine ⟨?_, ?_, ?_⟩
  · intro client fs opts base tree hempty hbuild
    simp [getTreeSHA, hempty, hbuild]
  · intro basePaths entries p h
    simp only [resultTreeHasPath, List.any_eq_true, Bool.and_eq_true,
      decide_eq_true_eq, Bool.not_eq_true'] at h
    rcases h with ⟨e, he, hp, hd⟩
    exact ⟨e, he, hp, hd⟩
  · intro t basePaths entries p hmem hnone
    have hany : entries.any (fun e => e.path = p && !(isDeletionEntry e))
        = false := by
      simp only [List.any_eq_false, Bool.and_eq_true, decide_eq_true_eq,
        Bool.not_eq_true', not_and]
      intro e he hp
      exact absurd hp (hnone e he)
    have hany2 : entries.any (fun e => e.path = p && isDeletionEntry e)
        = false := by
      simp only [List.any_eq_false, Bool.and_eq_true, decide_eq_true_eq,
        not_and]
      intro e he hp
      exact absurd hp (hnone e he)
    have hbase : basePaths.any (fun q => q = p) = true := by
      simp only [List.any_eq_true, decide_eq_true_eq]
      exact ⟨p, hmem, rfl⟩
    constructor
    · simp [resultTreeHasPath, hany]
    · simp [resultTreeHasPath, hany, hany2, hbase]

/-- Witness for the base-tree-omission claim: adding file `x` with `noParent`
set creates the tree with no base tree attached. -/
theorem noParent_base_tree_omitted_witness :
    getTreeSHA demoClient smallFS treeOpts
        { target := { oid := "c0", tree := { oid := "t0" } } } =
      (Except.ok "newtree",
       [RemoteCall.createTreeCall "o" "r" [xEntry] none]) :=
  noParent_base_tree_omitted.1 demoClient smallFS treeOpts
    { target := { oid := "c0", tree := { oid := "t0" } } } [xEntry] rfl rfl

lemma land_perm_exec (m : Nat) :
    Nat.land (Nat.land m 511) 73 = Nat.land m 73 := by
  have h2 : Nat.land 511 73 = 73 := by decide
  calc Nat.land (Nat.land m 511) 73
      = Nat.land m (Nat.land 511 73) := Nat.land_assoc m 511 73
    _ = Nat.land m 73 := by rw [h2]

/-- C7: the POSIX mode mapping claim holds of `getFileMode` in `part_000`
(a regular file maps to `100755` exactly when an execute bit `0o111` is set,
directories to `040000`, gitlinks to `160000`, symlinks to `120000`, anything
else leniently to `100644`), but the legacy `main.ts` `getFileMode` maps the
executable regular file mode `0o100755 = 33261` to `100644`: its `0o100755`
case can never equal the `0o170000`-masked scrutinee, contradicting that
case's own `executable file` intent, which `part_000` implements. -/
theorem getFileMode_claim_vs_main :
    (∀ mode : Nat,
        getFileMode mode =
          (if Nat.land mode 61440 = 32768 then
             (if Nat.land mode 73 ≠ 0 then FileMode.m100755
              else FileMode.m100644)
           else if Nat.land mode 61440 = 16384 then FileMode.m040000
           else if Nat.land mode 61440 = 57344 then FileMode.m160000
           else if Nat.land mode 61440 = 40960 then FileMode.m120000
           else FileMode.m100644)) ∧
    MainTs.getFileMode 33261 = FileMode.m100644 ∧
    getFileMode 33261 = FileMode.m100755 := by
  refine ⟨?_, by decide, by decide⟩
  intro mode
  simp only [getFileMode, land_perm_exec]

lemma findPackedRef_sound (lines : List String) (ref sha : String)
    (h : findPackedRef lines ref = some sha) :
    ∃ line ∈ lines, jsStartsWith line "#" = false ∧ jsTrim line ≠ "" ∧
      ∃ rest, jsSplitOnChar ' ' line = sha :: ref :: rest := by
  induction lines with
  | nil => simp [findPackedRef] at h
  | cons line tail ih =>
    simp only [findPackedRef] at h
    by_cases hskip : (jsStartsWith line "#" || decide (jsTrim line = "")) = true
    · rw [if_pos hskip] at h
      obtain ⟨l, hl, hprop⟩ := ih h
      exact ⟨l, List.mem_cons_of_mem _ hl, hprop⟩
    · rw [if_neg hskip] at h
      have hskip2 := hskip
      simp only [Bool.or_eq_true, decide_eq_true_eq, not_or,
        Bool.not_eq_true] at hskip2
      rcases hsplit : jsSplitOnChar ' ' line with _ | ⟨sha1, tl⟩
      · simp only [hsplit] at h
        obtain ⟨l, hl, hprop⟩ := ih h
        exact ⟨l, List.mem_cons_of_mem _ hl, hprop⟩
      · rcases tl with _ | ⟨packedRef, tl2⟩
        · simp only [hsplit] at h
          obtain ⟨l, hl, hprop⟩ := ih h
          exact ⟨l, List.mem_cons_of_mem _ hl, hprop⟩
        · simp only [hsplit] at h
          by_cases heq : packedRef = ref
          · rw [if_pos heq] at h
            have hsha : sha1 = sha := by
              injection h
            refine ⟨line, List.mem_cons_self _ _, hskip2.1, hskip2.2,
              tl2, ?_⟩
            rw [hsplit, hsha, heq]
          · rw [if_neg heq] at h
            obtain ⟨l, hl, hprop⟩ := ih h
            exact ⟨l, List.mem_cons_of_mem _ hl, hprop⟩

/-- C4: submodule HEAD resolution.  A non-symbolic `HEAD` resolves to its own
trimmed content; a symbolic `HEAD` resolves to the trimmed loose ref file
whenever that file exists — for every filesystem, including ones whose
`packed-refs` lists a different stale SHA for the same ref — and falls back
to `resolvePackedRef` only when the loose file is absent; the packed-refs
scan succeeds only on a non-comment, non-blank line whose ref name equals the
resolved ref path exactly, and otherwise fails with an error naming the
unresolved ref. -/
theorem resolveGitHEAD_chain :
    (∀ (fs : FS) (gitDir raw : String),
        fs.readFileUtf8 (pathJoin gitDir "HEAD") = some raw →
        jsStartsWith (jsTrim raw) "ref: " = false →
        resolveGitHEAD fs gitDir = Except.ok (jsTrim raw)) ∧
    (∀ (fs : FS) (gitDir raw loose : String),
        fs.readFileUtf8 (pathJoin gitDir "HEAD") = some raw →
        jsStartsWith (jsTrim raw) "ref: " = true →
        fs.readFileUtf8 (pathJoin gitDir (jsDrop (jsTrim raw) 5)) = some loose →
        resolveGitHEAD fs gitDir = Except.ok (jsTrim loose)) ∧
    (∀ (fs : FS) (gitDir raw : String),
        fs.readFileUtf8 (pathJoin gitDir "HEAD") = some raw →
        jsStartsWith (jsTrim raw) "ref: " = true →
        fs.readFileUtf8 (pathJoin gitDir (jsDrop (jsTrim raw) 5)) = none →
        resolveGitHEAD fs gitDir =
          resolvePackedRef fs gitDir (jsDrop (jsTrim raw) 5)) ∧
    (∀ (fs : FS) (gitDir ref content : String),
        fs.readFileUtf8 (pathJoin gitDir "packed-refs") = some content →
        findPackedRef (jsSplitOnChar '\n' content) ref = none →
        resolvePackedRef fs gitDir ref =
          Except.error
            (Thrown.error ("ref " ++ ref ++ " not found in packed-refs"))) ∧
    (∀ (fs : FS) (gitDir ref content sha : String),
        fs.readFileUtf8 (pathJoin gitDir "packed-refs") = some content →
        findPackedRef (jsSplitOnChar '\n' content) ref = some sha →
        resolvePackedRef fs gitDir ref = Except.ok sha) ∧
    (∀ (lines : List String) (ref sha : String),
        findPackedRef lines ref = some sha →
        ∃ line ∈ lines, jsStartsWith line "#" = false ∧ jsTrim line ≠ "" ∧
          ∃ rest, jsSplitOnChar ' ' line = sha :: ref :: rest) := by
  refine ⟨?_, ?_, ?_, ?_, ?_, ?_⟩
  · intro fs gitDir raw h1 h2
    simp [resolveGitHEAD, h1, h2]
  · intro fs gitDir raw loose h1 h2 h3
    simp [resolveGitHEAD, h1, h2, h3]
  · intro fs gitDir raw h1 h2 h3
    simp [resolveGitHEAD, h1, h2, h3]
  · intro fs gitDir ref content h1 h2
    simp [resolvePackedRef, h1, h2]
  · intro fs gitDir ref content sha h1 h2
    simp [resolvePackedRef, h1, h2]
  · intro lines ref sha h
    exact findPackedRef_sound lines ref sha h

/-- Witness for the HEAD-resolution claim: in `looseWinsFS` the symbolic
`HEAD` resolves to the loose ref value `aaa` even though `packed-refs` lists
the stale `bbb` for the same ref name. -/
theorem resolveGitHEAD_chain_witness :
    resolveGitHEAD looseWinsFS "g" = Except.ok "aaa" := by
  have h := resolveGitHEAD_chain.2.1 looseWinsFS "g" "ref: refs/heads/main\n"
    "aaa\n" rfl rfl rfl
  exact h.trans rfl
